import Mathlib

/-!
Verification of `cmd/flux/create_source_git.go` (flux `create source git`).

The Go source is shallowly embedded: the Kubernetes client is modelled as an
association-list store plus injectable read/write errors, effectful steps of
`createSourceGitCmdRun` (key generation, host-key scan, secret publication,
resource upsert) are recorded in an event trace, and the readiness poller is
modelled as a fold over the sequence of observations the client returns at
each poll instant (the end of the list is the deadline, matching
`wait.PollImmediate` returning `ErrWaitTimeout`).
-/

namespace CreateSourceGit

/-- Go `types.NamespacedName`. -/
structure NamespacedName where
  ns : String
  name : String
deriving DecidableEq, Repr

/-- Go `metav1.ConditionStatus`: the tri-state of a status condition
(`"True"`, `"False"`, `"Unknown"`). -/
inductive ConditionStatus
  | conditionTrue
  | conditionFalse
  | conditionUnknown
deriving DecidableEq, Repr

/-- Go `metav1.Condition` (the fields the program reads). -/
structure Condition where
  condType : String
  status : ConditionStatus
  message : String
deriving DecidableEq, Repr

/-- The constant `meta.ReadyCondition`. -/
def ReadyCondition : String := "Ready"

/-- Go `apimeta.FindStatusCondition`: first condition with the given type. -/
def FindStatusCondition (conditions : List Condition) (condType : String) :
    Option Condition :=
  conditions.find? (fun c => c.condType = condType)

/-- Go `sourcev1.Artifact` (the field the program reads). -/
structure Artifact where
  revision : String
deriving DecidableEq, Repr

/-- Go `sourcev1.GitRepositoryStatus` (the fields the program reads). -/
structure GitRepositoryStatus where
  conditions : List Condition
  artifact : Option Artifact
deriving DecidableEq, Repr

/-- Go `sourcev1.GitRepositoryRef`: the revision selector. A zero value
(`&sourcev1.GitRepositoryRef{}`) has every field empty. -/
structure GitRepositoryRef where
  branch : String := ""
  tag : String := ""
  semver : String := ""
deriving DecidableEq, Repr

/-- Go `corev1.LocalObjectReference`. -/
structure LocalObjectReference where
  name : String
deriving DecidableEq, Repr

/-- Go `sourcev1.GitRepositorySpec` (the fields the program writes).
The interval is kept abstract as a number of nanoseconds. -/
structure GitRepositorySpec where
  url : String
  interval : Nat
  reference : GitRepositoryRef
  secretRef : Option LocalObjectReference := none
  gitImplementation : String := ""
deriving DecidableEq, Repr

/-- Go `metav1.ObjectMeta` (the fields the program touches, plus the
server-assigned resource version used to state frame conditions). -/
structure ObjectMeta where
  name : String
  ns : String
  labels : List (String × String)
  resourceVersion : Nat := 0
deriving DecidableEq, Repr

/-- Go `sourcev1.GitRepository`. -/
structure GitRepository where
  metadata : ObjectMeta
  spec : GitRepositorySpec
  status : GitRepositoryStatus
deriving DecidableEq, Repr

/-- Go `corev1.Secret` (the fields the program sets). -/
structure Secret where
  metadata : ObjectMeta
  stringData : List (String × String)
deriving DecidableEq, Repr

/-! ### The control-plane store -/

/-- The control plane's set of GitRepository objects, keyed by
namespace/name. -/
abbrev Store := List (NamespacedName × GitRepository)

/-- Read the object stored under a key (first occurrence). -/
def Store.get : Store → NamespacedName → Option GitRepository
  | [], _ => none
  | (k, v) :: rest, key => if k = key then some v else Store.get rest key

/-- Write an object under a key: replace the first occurrence in place,
or append when the key is absent. -/
def Store.put : Store → NamespacedName → GitRepository → Store
  | [], key, v => [(key, v)]
  | (k, w) :: rest, key, v =>
    if k = key then (key, v) :: rest else (k, w) :: Store.put rest key v

/-- The Kubernetes client as seen by `upsertGitRepository`: a store of
GitRepository objects plus injectable errors standing for read/write
failures other than NotFound. -/
structure KubeClient where
  repos : Store
  getErr : Option String := none
  createErr : Option String := none
  updateErr : Option String := none
deriving DecidableEq, Repr

/-- Whether the upsert took the create path or the update path. -/
inductive UpsertOutcome
  | created
  | updated
deriving DecidableEq, Repr

/-- The two assignments of the update path (`existing.Labels = ...;
existing.Spec = ...`): the existing object with exactly its labels and
spec overwritten by the desired object's. -/
def updatedExisting (existing gitRepository : GitRepository) : GitRepository :=
  { existing with
    metadata := { existing.metadata with labels := gitRepository.metadata.labels }
    spec := gitRepository.spec }

/-- The function `upsertGitRepository`: `Get` the object by namespace/name; on NotFound,
`Create` the desired object; on any other read error, propagate it; when
found, overwrite exactly the existing object's labels and spec with the
desired ones and `Update`. Returns the namespaced name and, on success, the
resulting store state and which path was taken. -/
def upsertGitRepository (kc : KubeClient) (gitRepository : GitRepository) :
    NamespacedName × Except String (Store × UpsertOutcome) :=
  let namespacedName : NamespacedName :=
    ⟨gitRepository.metadata.ns, gitRepository.metadata.name⟩
  match kc.getErr with
  | some e => (namespacedName, .error e)
  | none =>
    match Store.get kc.repos namespacedName with
    | none =>
      match kc.createErr with
      | some e => (namespacedName, .error e)
      | none =>
        (namespacedName, .ok (Store.put kc.repos namespacedName gitRepository, .created))
    | some existing =>
      match kc.updateErr with
      | some e => (namespacedName, .error e)
      | none =>
        (namespacedName,
         .ok (Store.put kc.repos namespacedName (updatedExisting existing gitRepository),
           .updated))

/-! ### The readiness poller -/

/-- Leading format flags of a `fmt` directive (`#`, `0`, `+`, `-`, space). -/
def dropFlags : List Char → List Char
  | c :: rest =>
    if c = '#' ∨ c = '0' ∨ c = '+' ∨ c = '-' ∨ c = ' ' then dropFlags rest
    else c :: rest
  | [] => []

/-- A numeric width or precision of a `fmt` directive. -/
def dropDigits : List Char → List Char
  | c :: rest => if c.isDigit then dropDigits rest else c :: rest
  | [] => []

/-- An optional `.precision` of a `fmt` directive. -/
def dropPrecision : List Char → List Char
  | '.' :: rest => dropDigits rest
  | cs => cs

/-- Modelled from Go's `fmt` semantics: processing a format string with no
operands, as `fmt.Errorf(c.Message)` does at line 333. Literal text is
copied; `%%` renders as `%`; any other directive (optional flags, width and
precision, then a verb character) has no operand left and renders as
`%!v(MISSING)`; a `%` ending the string renders as `%!(NOVERB)`. The fuel
exceeds the remaining input, so it never runs out. -/
def ErrorfGo : Nat → List Char → List Char
  | 0, _ => []
  | _ + 1, [] => []
  | fuel + 1, c :: rest =>
    if c = '%' then
      match dropPrecision (dropDigits (dropFlags rest)) with
      | [] => ("%!(NOVERB)").data
      | v :: r =>
        if v = '%' then '%' :: ErrorfGo fuel r
        else '%' :: '!' :: v :: (("(MISSING)").data ++ ErrorfGo fuel r)
    else c :: ErrorfGo fuel rest

/-- Go `fmt.Errorf` applied to a message with no operand arguments: the
resulting error's text. -/
def Errorf (s : String) : String := String.mk (ErrorfGo (s.data.length + 1) s.data)

/-- The result of one invocation of the `wait.ConditionFunc` built by
`isGitRepositoryReady`: `(true, nil)`, `(false, nil)`, or `(false, err)`. -/
inductive StepResult
  | done
  | pending
  | failure (msg : String)
deriving DecidableEq, Repr

/-- One poll step of `isGitRepositoryReady`, applied to the outcome of the
client `Get` at that instant: a read error is returned as the step's error
unchanged; otherwise the `Ready` condition is looked up — status True is
done, status False is the error `fmt.Errorf(c.Message)` (the message used
as a format string with no operands), and an absent condition or status
Unknown leaves the step pending. -/
def isGitRepositoryReady (obs : Except String GitRepository) : StepResult :=
  match obs with
  | .error e => .failure e
  | .ok gitRepository =>
    match FindStatusCondition gitRepository.status.conditions ReadyCondition with
    | some c =>
      match c.status with
      | .conditionTrue => .done
      | .conditionFalse => .failure (Errorf c.message)
      | .conditionUnknown => .pending
    | none => .pending

/-- The outcome of `wait.PollImmediate` over the readiness condition:
success carries the last-fetched object (the Go code keeps it in
`gitRepository`), failure carries the step's error, and exhausting the
deadline while pending is the distinct `ErrWaitTimeout`. -/
inductive PollOutcome
  | ready (gitRepository : GitRepository)
  | failed (msg : String)
  | timeout
deriving DecidableEq, Repr

/-- Go `wait.PollImmediate` driving `isGitRepositoryReady`: observations are
consumed in order; the first done step succeeds with that observation's
object, the first erroring step fails with its error, and running out of
observations while still pending is the timeout. -/
def pollGitRepositoryReady : List (Except String GitRepository) → PollOutcome
  | [] => .timeout
  | obs :: rest =>
    match obs with
    | .error e => .failed e
    | .ok gitRepository =>
      match isGitRepositoryReady (.ok gitRepository) with
      | .done => .ready gitRepository
      | .failure e => .failed e
      | .pending => pollGitRepositoryReady rest

instance {ε α : Type} [DecidableEq ε] [DecidableEq α] : DecidableEq (Except ε α) := fun a b =>
  match a, b with
  | .error e, .error f =>
    if h : e = f then isTrue (by rw [h])
    else isFalse (fun hh => h (Except.error.inj hh))
  | .error _, .ok _ => isFalse (fun hh => Except.noConfusion hh)
  | .ok _, .error _ => isFalse (fun hh => Except.noConfusion hh)
  | .ok x, .ok y =>
    if h : x = y then isTrue (by rw [h])
    else isFalse (fun hh => h (Except.ok.inj hh))

/-! ### URL scheme extraction (`net/url.Parse`) -/

/-- Scheme scan of Go's `url.Parse`: alphabetic characters extend the
scheme; digits, `+`, `-`, `.` extend it only after the first character; a
`:` ends it (an immediate `:` is the "missing protocol scheme" error); any
other character, or the end of the string, means the URL has no scheme.
`url.Parse` lowercases the scheme it returns. -/
def getSchemeGo : List Char → List Char → Except String String
  | [], _ => .ok ""
  | c :: rest, acc =>
    if c = ':' then
      if acc = [] then .error "missing protocol scheme"
      else .ok (String.mk (acc.reverse.map Char.toLower))
    else if c.isAlpha then getSchemeGo rest (c :: acc)
    else if (c.isDigit || c = '+' || c = '-' || c = '.') && acc ≠ [] then
      getSchemeGo rest (c :: acc)
    else .ok ""

/-- The scheme of a parsed URL (`u.Scheme` after `url.Parse`). -/
def getScheme (s : String) : Except String String := getSchemeGo s.data []

/-! ### The run -/

/-- The flag variables read by `createSourceGitCmdRun`, together with the
ambient `namespace` flag, the parsed labels and the interval. -/
structure RunFlags where
  url : String
  branch : String := "master"
  tag : String := ""
  semver : String := ""
  username : String := ""
  password : String := ""
  secretRef : String := ""
  gitImplementation : String := ""
  exportFlag : Bool := false
  ns : String := "flux-system"
  labels : List (String × String) := []
  interval : Nat := 0
deriving DecidableEq, Repr

/-- The result of `generateKeyPair`: a private/public key pair. -/
structure KeyPair where
  privateKey : String
  publicKey : String
deriving DecidableEq, Repr

/-- Oracle for the run's external operations: the outcome `generateKeyPair`
would produce, the answer to the deploy-key confirmation prompt, and the
outcome `scanHostKey` would produce. -/
structure ExternalOps where
  keyPair : Except String KeyPair := .ok ⟨"priv", "pub"⟩
  promptConfirmed : Bool := true
  hostKey : Except String String := .ok "hostkey"
deriving DecidableEq, Repr

/-- The externally visible effects of a run, in the order performed. -/
inductive Event
  | generateKeyPair
  | scanHostKey
  | upsertSecret (secret : Secret)
  | upsertRepo (gitRepository : GitRepository)
  | pollRepo
deriving DecidableEq, Repr

/-- The store of published secrets, keyed by namespace/name. -/
abbrev SecretStore := List (NamespacedName × Secret)

/-- Modelled from the spec: `upsertSecret` (its definition lives outside
this source file) publishes the secret under its namespace/name, creating
it when absent and fully overwriting its fields when present (§4.3). -/
def upsertSecretStore : SecretStore → NamespacedName → Secret → SecretStore
  | [], key, v => [(key, v)]
  | (k, w) :: rest, key, v =>
    if k = key then (key, v) :: rest else (k, w) :: upsertSecretStore rest key v

/-- The selector `gitRepository.Spec.Reference` as built by lines 164-170: semver wins,
else tag, else branch (the other two fields stay at the zero value). -/
def buildGitRepositoryRef (flags : RunFlags) : GitRepositoryRef :=
  if flags.semver ≠ "" then { semver := flags.semver }
  else if flags.tag ≠ "" then { tag := flags.tag }
  else { branch := flags.branch }

/-- A successful run: either the resource was exported instead of applied,
or reconciliation completed and fetched the artifact's revision. -/
inductive RunOutcome
  | exported (gitRepository : GitRepository)
  | reconciled (revision : String)
deriving DecidableEq, Repr

/-- What a run produced: its outcome or error, its event trace, and the
final secret store and client state. -/
structure RunResult where
  outcome : Except String RunOutcome
  trace : List Event
  secrets : SecretStore
  client : KubeClient
deriving DecidableEq, Repr

/-- Lines 275-285: interpret the poll's outcome — a timeout or failure is
returned as the run's error, and on Ready the fetched object must hold an
artifact record, whose revision is the run's success value. -/
def concludeRun (outcome : PollOutcome) : Except String RunOutcome :=
  match outcome with
  | .timeout => .error "timed out waiting for the condition"
  | .failed msg => .error msg
  | .ready fetched =>
    match fetched.status.artifact with
    | none =>
      .error "GitRepository source reconciliation completed but no artifact was found"
    | some artifact => .ok (.reconciled artifact.revision)

/-- The desired GitRepository built at lines 148-170: name/namespace/labels,
the URL and interval, the revision reference and the implementation hint. -/
def desiredGitRepository (name : String) (flags : RunFlags) : GitRepository :=
  { metadata := { name := name, ns := flags.ns, labels := flags.labels }
    spec := { url := flags.url, interval := flags.interval,
              reference := buildGitRepositoryRef flags,
              gitImplementation := flags.gitImplementation }
    status := { conditions := [], artifact := none } }

/-- The GitRepository as exported (lines 172-179): the credential reference
is set only when an explicit secret reference was supplied. -/
def exportedGitRepository (name : String) (flags : RunFlags) : GitRepository :=
  if flags.secretRef ≠ "" then
    { desiredGitRepository name flags with
      spec := { (desiredGitRepository name flags).spec with
                secretRef := some ⟨flags.secretRef⟩ } }
  else desiredGitRepository name flags

/-- The GitRepository as applied (lines 258-266): when authentication was
configured, the credential reference names the explicit secret reference if
one was supplied, else the resource's own name. -/
def finalGitRepository (name : String) (flags : RunFlags) (withAuth : Bool) :
    GitRepository :=
  if withAuth then
    let secretName := if flags.secretRef ≠ "" then flags.secretRef else name
    { desiredGitRepository name flags with
      spec := { (desiredGitRepository name flags).spec with
                secretRef := some ⟨secretName⟩ } }
  else desiredGitRepository name flags

/-- The deploy-key secret built at lines 218-230: the resource's own
name/namespace/labels, with the generated key pair and scanned host key. -/
def sshSecret (name : String) (flags : RunFlags) (pair : KeyPair)
    (hostKey : String) : Secret :=
  { metadata := { name := name, ns := flags.ns, labels := flags.labels }
    stringData := [("identity", pair.privateKey),
                   ("identity.pub", pair.publicKey),
                   ("known_hosts", hostKey)] }

/-- The basic-auth secret built at lines 237-247. -/
def basicAuthSecret (name : String) (flags : RunFlags) : Secret :=
  { metadata := { name := name, ns := flags.ns, labels := flags.labels }
    stringData := [("username", flags.username),
                   ("password", flags.password)] }

/-- The outcome of the authentication-preparation block: an early return
with an error, or `withAuth` together with the events performed and the
resulting secret store. -/
inductive AuthResult
  | failed (e : String) (trace : List Event)
  | done (withAuth : Bool) (trace : List Event) (secrets : SecretStore)
deriving DecidableEq, Repr

/-- The authentication-preparation block of `createSourceGitCmdRun`
(lines 191-250), evaluated in strict precedence order: an explicit secret
reference wins and performs nothing; else an SSH-scheme URL generates a
keypair, asks for confirmation, scans the host key and publishes the
deploy-key secret; else non-empty username and password publish a
basic-auth secret; else no authentication is configured. -/
def provisionAuth (name : String) (scheme : String) (flags : RunFlags)
    (ext : ExternalOps) (secrets : SecretStore) : AuthResult :=
  if flags.secretRef ≠ "" then .done true [] secrets
  else if scheme = "ssh" then
    match ext.keyPair with
    | .error e => .failed e [.generateKeyPair]
    | .ok pair =>
      if ¬ ext.promptConfirmed then .failed "aborting" [.generateKeyPair]
      else
        match ext.hostKey with
        | .error e => .failed e [.generateKeyPair, .scanHostKey]
        | .ok hostKey =>
          .done true
            [.generateKeyPair, .scanHostKey, .upsertSecret (sshSecret name flags pair hostKey)]
            (upsertSecretStore secrets ⟨flags.ns, name⟩ (sshSecret name flags pair hostKey))
  else if flags.username ≠ "" ∧ flags.password ≠ "" then
    .done true [.upsertSecret (basicAuthSecret name flags)]
      (upsertSecretStore secrets ⟨flags.ns, name⟩ (basicAuthSecret name flags))
  else .done false [] secrets

/-- Lines 268-285: upsert the GitRepository (propagating its error), then
poll readiness over the observation sequence and interpret the outcome. -/
def applyAndWait (kc : KubeClient) (gitRepository : GitRepository)
    (observations : List (Except String GitRepository)) :
    Except String RunOutcome × List Event × KubeClient :=
  match (upsertGitRepository kc gitRepository).2 with
  | .error e => (.error e, [.upsertRepo gitRepository], kc)
  | .ok (store1, _) =>
    (concludeRun (pollGitRepositoryReady observations),
     [.upsertRepo gitRepository, .pollRepo], { kc with repos := store1 })

/-- The function `createSourceGitCmdRun`: validate the arguments, parse the URL, build
the desired GitRepository; export it when requested; otherwise provision
credentials by strict precedence, publish any generated secret under the
resource's own name, upsert the GitRepository, poll its readiness and check
the artifact. `observations` is the sequence of results the client returns
to the poller, one per poll instant up to the deadline. -/
def createSourceGitCmdRun (args : List String) (flags : RunFlags)
    (ext : ExternalOps) (secrets : SecretStore) (kc : KubeClient)
    (observations : List (Except String GitRepository)) : RunResult :=
  match args with
  | [] => ⟨.error "GitRepository source name is required", [], secrets, kc⟩
  | name :: _ =>
    if flags.url = "" then ⟨.error "url is required", [], secrets, kc⟩ else
    match getScheme flags.url with
    | .error e => ⟨.error ("git URL parse failed: " ++ e), [], secrets, kc⟩
    | .ok scheme =>
      if ¬(flags.gitImplementation = "go-git" ∨
          flags.gitImplementation = "libgit2" ∨ flags.gitImplementation = "") then
        ⟨.error ("Invalid git implementation \"" ++ flags.gitImplementation ++ "\""), [],
          secrets, kc⟩
      else if flags.exportFlag then
        ⟨.ok (.exported (exportedGitRepository name flags)), [], secrets, kc⟩
      else
        match provisionAuth name scheme flags ext secrets with
        | .failed e trace => ⟨.error e, trace, secrets, kc⟩
        | .done withAuth trace secrets1 =>
          let aw := applyAndWait kc (finalGitRepository name flags withAuth) observations
          ⟨aw.1, trace ++ aw.2.1, secrets1, aw.2.2⟩

/-! ### Helper lemmas -/

theorem Store.get_put_self (s : Store) (k : NamespacedName) (v : GitRepository) :
    Store.get (Store.put s k v) k = some v := by
  induction s with
  | nil => simp [Store.put, Store.get]
  | cons hd tl ih =>
    obtain ⟨k1, v1⟩ := hd
    by_cases h : k1 = k
    · simp [Store.put, Store.get, h]
    · simp [Store.put, Store.get, h, ih]

theorem Store.get_put_ne (s : Store) (k k2 : NamespacedName) (v : GitRepository)
    (h : k ≠ k2) : Store.get (Store.put s k v) k2 = Store.get s k2 := by
  induction s with
  | nil => simp [Store.put, Store.get, h]
  | cons hd tl ih =>
    obtain ⟨k1, v1⟩ := hd
    by_cases hk : k1 = k
    · subst hk
      simp [Store.put, Store.get, h]
    · simp [Store.put, Store.get, hk, ih]

theorem Store.put_put (s : Store) (k : NamespacedName) (v w : GitRepository) :
    Store.put (Store.put s k v) k w = Store.put s k w := by
  induction s with
  | nil => simp [Store.put]
  | cons hd tl ih =>
    obtain ⟨k1, v1⟩ := hd
    by_cases h : k1 = k
    · simp [Store.put, h]
    · simp [Store.put, h, ih]

theorem provisionAuth_secretRef {name scheme : String} {flags : RunFlags}
    {ext : ExternalOps} {secrets : SecretStore} (h : flags.secretRef ≠ "") :
    provisionAuth name scheme flags ext secrets = .done true [] secrets := by
  simp [provisionAuth, h]

theorem provisionAuth_ssh {name : String} {flags : RunFlags} {ext : ExternalOps}
    {secrets : SecretStore} {pair : KeyPair} {hostKey : String}
    (h1 : flags.secretRef = "") (h2 : ext.keyPair = .ok pair)
    (h3 : ext.promptConfirmed = true) (h4 : ext.hostKey = .ok hostKey) :
    provisionAuth name "ssh" flags ext secrets =
      .done true
        [.generateKeyPair, .scanHostKey, .upsertSecret (sshSecret name flags pair hostKey)]
        (upsertSecretStore secrets ⟨flags.ns, name⟩ (sshSecret name flags pair hostKey)) := by
  simp [provisionAuth, h1, h2, h3, h4]

theorem provisionAuth_ssh_keyFail {name : String} {flags : RunFlags}
    {ext : ExternalOps} {secrets : SecretStore} {e : String}
    (h1 : flags.secretRef = "") (h2 : ext.keyPair = .error e) :
    provisionAuth name "ssh" flags ext secrets = .failed e [.generateKeyPair] := by
  simp [provisionAuth, h1, h2]

theorem provisionAuth_ssh_declined {name : String} {flags : RunFlags}
    {ext : ExternalOps} {secrets : SecretStore} {pair : KeyPair}
    (h1 : flags.secretRef = "") (h2 : ext.keyPair = .ok pair)
    (h3 : ext.promptConfirmed = false) :
    provisionAuth name "ssh" flags ext secrets = .failed "aborting" [.generateKeyPair] := by
  simp [provisionAuth, h1, h2, h3]

theorem provisionAuth_ssh_scanFail {name : String} {flags : RunFlags}
    {ext : ExternalOps} {secrets : SecretStore} {pair : KeyPair} {e : String}
    (h1 : flags.secretRef = "") (h2 : ext.keyPair = .ok pair)
    (h3 : ext.promptConfirmed = true) (h4 : ext.hostKey = .error e) :
    provisionAuth name "ssh" flags ext secrets =
      .failed e [.generateKeyPair, .scanHostKey] := by
  simp [provisionAuth, h1, h2, h3, h4]

theorem provisionAuth_basic {name scheme : String} {flags : RunFlags}
    {ext : ExternalOps} {secrets : SecretStore}
    (h1 : flags.secretRef = "") (h2 : scheme ≠ "ssh")
    (h3 : flags.username ≠ "") (h4 : flags.password ≠ "") :
    provisionAuth name scheme flags ext secrets =
      .done true [.upsertSecret (basicAuthSecret name flags)]
        (upsertSecretStore secrets ⟨flags.ns, name⟩ (basicAuthSecret name flags)) := by
  simp [provisionAuth, h1, h2, h3, h4]

theorem provisionAuth_none {name scheme : String} {flags : RunFlags}
    {ext : ExternalOps} {secrets : SecretStore}
    (h1 : flags.secretRef = "") (h2 : scheme ≠ "ssh")
    (h3 : flags.username = "" ∨ flags.password = "") :
    provisionAuth name scheme flags ext secrets = .done false [] secrets := by
  rcases h3 with h3 | h3 <;> simp [provisionAuth, h1, h2, h3]

theorem createSourceGitCmdRun_eq {name : String} {rest : List String}
    {flags : RunFlags} {ext : ExternalOps} {secrets : SecretStore}
    {kc : KubeClient} {obs : List (Except String GitRepository)} {scheme : String}
    (h1 : flags.url ≠ "") (h2 : getScheme flags.url = .ok scheme)
    (h3 : flags.gitImplementation = "go-git" ∨ flags.gitImplementation = "libgit2" ∨
      flags.gitImplementation = "")
    (h4 : flags.exportFlag = false) :
    createSourceGitCmdRun (name :: rest) flags ext secrets kc obs =
      match provisionAuth name scheme flags ext secrets with
      | .failed e trace => ⟨.error e, trace, secrets, kc⟩
      | .done withAuth trace secrets1 =>
        let aw := applyAndWait kc (finalGitRepository name flags withAuth) obs
        ⟨aw.1, trace ++ aw.2.1, secrets1, aw.2.2⟩ := by
  simp [createSourceGitCmdRun, h1, h2, h3, h4]

/-- The events of either `AuthResult` constructor. -/
def AuthResult.events : AuthResult → List Event
  | .failed _ tr => tr
  | .done _ tr _ => tr

theorem applyAndWait_trace (kc : KubeClient) (r : GitRepository)
    (obs : List (Except String GitRepository)) :
    (applyAndWait kc r obs).2.1 = [.upsertRepo r] ∨
    (applyAndWait kc r obs).2.1 = [.upsertRepo r, .pollRepo] := by
  unfold applyAndWait
  cases h : (upsertGitRepository kc r).2 with
  | error e => simp
  | ok p => obtain ⟨s1, o⟩ := p; simp

theorem applyAndWait_upsertRepo_mem (kc : KubeClient) (r : GitRepository)
    (obs : List (Except String GitRepository)) :
    Event.upsertRepo r ∈ (applyAndWait kc r obs).2.1 := by
  rcases applyAndWait_trace kc r obs with h | h <;> simp [h]

theorem applyAndWait_mem_cases {kc : KubeClient} {r : GitRepository}
    {obs : List (Except String GitRepository)} {e : Event}
    (h : e ∈ (applyAndWait kc r obs).2.1) :
    e = .upsertRepo r ∨ e = .pollRepo := by
  rcases applyAndWait_trace kc r obs with ht | ht <;> rw [ht] at h <;> simp at h <;>
    tauto

theorem applyAndWait_outcome (kc : KubeClient) (r : GitRepository)
    (obs : List (Except String GitRepository)) :
    (∃ e, (applyAndWait kc r obs).1 = .error e) ∨
    (applyAndWait kc r obs).1 = concludeRun (pollGitRepositoryReady obs) := by
  unfold applyAndWait
  cases h : (upsertGitRepository kc r).2 with
  | error e => exact .inl ⟨e, by simp⟩
  | ok p => obtain ⟨s1, o⟩ := p; exact .inr (by simp)

theorem provisionAuth_secret_shape (name scheme : String) (flags : RunFlags)
    (ext : ExternalOps) (secrets : SecretStore) (s : Secret) :
    Event.upsertSecret s ∈ (provisionAuth name scheme flags ext secrets).events →
    (∃ pair hostKey, s = sshSecret name flags pair hostKey) ∨
      s = basicAuthSecret name flags := by
  unfold provisionAuth
  split
  · simp [AuthResult.events]
  · split
    · split
      · simp [AuthResult.events]
      · split
        · simp [AuthResult.events]
        · split
          · simp [AuthResult.events]
          · intro h
            simp [AuthResult.events] at h
            exact .inl ⟨_, _, h⟩
    · split
      · intro h
        simp [AuthResult.events] at h
        exact .inr h
      · simp [AuthResult.events]

theorem provisionAuth_no_upsertRepo (name scheme : String) (flags : RunFlags)
    (ext : ExternalOps) (secrets : SecretStore) (r : GitRepository) :
    Event.upsertRepo r ∉ (provisionAuth name scheme flags ext secrets).events := by
  unfold provisionAuth
  split
  · simp [AuthResult.events]
  · split
    · split
      · simp [AuthResult.events]
      · split
        · simp [AuthResult.events]
        · split <;> simp [AuthResult.events]
    · split <;> simp [AuthResult.events]

theorem run_secret_shape {args : List String} {flags : RunFlags} {ext : ExternalOps}
    {secrets : SecretStore} {kc : KubeClient}
    {obs : List (Except String GitRepository)} {s : Secret}
    (h : Event.upsertSecret s ∈ (createSourceGitCmdRun args flags ext secrets kc obs).trace) :
    ∃ name, (∃ pair hostKey, s = sshSecret name flags pair hostKey) ∨
      s = basicAuthSecret name flags := by
  cases args with
  | nil => simp [createSourceGitCmdRun] at h
  | cons name rest =>
    refine ⟨name, ?_⟩
    by_cases hurl : flags.url = ""
    · simp [createSourceGitCmdRun, hurl] at h
    · cases hsch : getScheme flags.url with
      | error e => simp [createSourceGitCmdRun, hurl, hsch] at h
      | ok scheme =>
        by_cases himpl : flags.gitImplementation = "go-git" ∨
            flags.gitImplementation = "libgit2" ∨ flags.gitImplementation = ""
        · cases hexp : flags.exportFlag with
          | true => simp [createSourceGitCmdRun, hurl, hsch, himpl, hexp] at h
          | false =>
            rw [createSourceGitCmdRun_eq hurl hsch himpl hexp] at h
            have hshape := provisionAuth_secret_shape name scheme flags ext secrets s
            cases hpa : provisionAuth name scheme flags ext secrets with
            | failed e tr =>
              rw [hpa] at h
              rw [hpa] at hshape
              simp only [AuthResult.events] at hshape
              exact hshape (by simpa using h)
            | done wA tr sec1 =>
              rw [hpa] at h
              rw [hpa] at hshape
              simp only [AuthResult.events] at hshape
              simp only [List.mem_append] at h
              rcases h with h | h
              · exact hshape (by simpa using h)
              · rcases applyAndWait_mem_cases (by simpa using h) with h2 | h2 <;>
                  simp at h2
        · simp [createSourceGitCmdRun, hurl, hsch, himpl] at h

theorem run_upsertRepo_shape {args : List String} {flags : RunFlags}
    {ext : ExternalOps} {secrets : SecretStore} {kc : KubeClient}
    {obs : List (Except String GitRepository)} {r : GitRepository}
    (h : Event.upsertRepo r ∈ (createSourceGitCmdRun args flags ext secrets kc obs).trace) :
    ∃ name withAuth, r = finalGitRepository name flags withAuth := by
  cases args with
  | nil => simp [createSourceGitCmdRun] at h
  | cons name rest =>
    refine ⟨name, ?_⟩
    by_cases hurl : flags.url = ""
    · simp [createSourceGitCmdRun, hurl] at h
    · cases hsch : getScheme flags.url with
      | error e => simp [createSourceGitCmdRun, hurl, hsch] at h
      | ok scheme =>
        by_cases himpl : flags.gitImplementation = "go-git" ∨
            flags.gitImplementation = "libgit2" ∨ flags.gitImplementation = ""
        · cases hexp : flags.exportFlag with
          | true => simp [createSourceGitCmdRun, hurl, hsch, himpl, hexp] at h
          | false =>
            rw [createSourceGitCmdRun_eq hurl hsch himpl hexp] at h
            have hnone := provisionAuth_no_upsertRepo name scheme flags ext secrets r
            cases hpa : provisionAuth name scheme flags ext secrets with
            | failed e tr =>
              rw [hpa] at h
              rw [hpa] at hnone
              simp only [AuthResult.events] at hnone
              exact absurd (by simpa using h) hnone
            | done wA tr sec1 =>
              rw [hpa] at h
              rw [hpa] at hnone
              simp only [AuthResult.events] at hnone
              simp only [List.mem_append] at h
              rcases h with h | h
              · exact absurd (by simpa using h) hnone
              · rcases applyAndWait_mem_cases (by simpa using h) with h2 | h2
                · exact ⟨wA, by simpa using h2⟩
                · simp at h2
        · simp [createSourceGitCmdRun, hurl, hsch, himpl] at h

theorem run_outcome_reconciled {args : List String} {flags : RunFlags}
    {ext : ExternalOps} {secrets : SecretStore} {kc : KubeClient}
    {obs : List (Except String GitRepository)} {rev : String}
    (h : (createSourceGitCmdRun args flags ext secrets kc obs).outcome =
      .ok (.reconciled rev)) :
    concludeRun (pollGitRepositoryReady obs) = .ok (.reconciled rev) := by
  cases args with
  | nil => simp [createSourceGitCmdRun] at h
  | cons name rest =>
    by_cases hurl : flags.url = ""
    · simp [createSourceGitCmdRun, hurl] at h
    · cases hsch : getScheme flags.url with
      | error e => simp [createSourceGitCmdRun, hurl, hsch] at h
      | ok scheme =>
        by_cases himpl : flags.gitImplementation = "go-git" ∨
            flags.gitImplementation = "libgit2" ∨ flags.gitImplementation = ""
        · cases hexp : flags.exportFlag with
          | true => simp [createSourceGitCmdRun, hurl, hsch, himpl, hexp] at h
          | false =>
            rw [createSourceGitCmdRun_eq hurl hsch himpl hexp] at h
            cases hpa : provisionAuth name scheme flags ext secrets with
            | failed e tr =>
              rw [hpa] at h
              simp at h
            | done wA tr sec1 =>
              rw [hpa] at h
              have h2 : (applyAndWait kc (finalGitRepository name flags wA) obs).1 =
                  .ok (.reconciled rev) := by simpa using h
              rcases applyAndWait_outcome kc (finalGitRepository name flags wA) obs with
                ⟨e, he⟩ | heq
              · rw [he] at h2
                simp at h2
              · rw [heq] at h2
                exact h2
        · simp [createSourceGitCmdRun, hurl, hsch, himpl] at h

theorem updatedExisting_self (d : GitRepository) : updatedExisting d d = d := rfl

theorem updatedExisting_idem (ex d : GitRepository) :
    updatedExisting (updatedExisting ex d) d = updatedExisting ex d := rfl

theorem isGitRepositoryReady_done_iff (r : GitRepository) :
    isGitRepositoryReady (.ok r) = .done ↔
    ∃ c, FindStatusCondition r.status.conditions ReadyCondition = some c ∧
      c.status = .conditionTrue := by
  unfold isGitRepositoryReady
  cases hf : FindStatusCondition r.status.conditions ReadyCondition with
  | none => simp [hf]
  | some c => cases hc : c.status <;> simp [hf, hc]

theorem poll_ready_find (obs : List (Except String GitRepository))
    (r : GitRepository) (h : pollGitRepositoryReady obs = .ready r) :
    ∃ c, FindStatusCondition r.status.conditions ReadyCondition = some c ∧
      c.status = .conditionTrue := by
  induction obs with
  | nil => simp [pollGitRepositoryReady] at h
  | cons o rest ih =>
    cases o with
    | error e => simp [pollGitRepositoryReady] at h
    | ok r0 =>
      rw [pollGitRepositoryReady] at h
      cases hstep : isGitRepositoryReady (.ok r0) with
      | done =>
        rw [hstep] at h
        simp at h
        subst h
        exact (isGitRepositoryReady_done_iff r0).mp hstep
      | failure e =>
        rw [hstep] at h
        simp at h
      | pending =>
        rw [hstep] at h
        simp at h
        exact ih h

/-! ### The claims -/

/-- C2: the readiness poller, reading the Ready condition each poll,
succeeds when its status is True, errors with the error built from the
condition's message when False, remains pending when the condition is
absent or Unknown, and, when
the observations run out while still pending, yields a timeout distinct
from failure; on [absent, absent, True] it is ready at the third
observation, and on [absent, False] it fails with the condition's
message. -/
theorem readiness_state_machine :
    (∀ (r : GitRepository) (c : Condition),
      FindStatusCondition r.status.conditions ReadyCondition = some c →
      c.status = .conditionTrue → isGitRepositoryReady (.ok r) = .done) ∧
    (∀ (r : GitRepository) (c : Condition),
      FindStatusCondition r.status.conditions ReadyCondition = some c →
      c.status = .conditionFalse →
      isGitRepositoryReady (.ok r) = .failure (Errorf c.message)) ∧
    (∀ r : GitRepository,
      FindStatusCondition r.status.conditions ReadyCondition = none →
      isGitRepositoryReady (.ok r) = .pending) ∧
    (∀ (r : GitRepository) (c : Condition),
      FindStatusCondition r.status.conditions ReadyCondition = some c →
      c.status = .conditionUnknown → isGitRepositoryReady (.ok r) = .pending) ∧
    (∀ obs : List (Except String GitRepository),
      (∀ o ∈ obs, isGitRepositoryReady o = .pending) →
      pollGitRepositoryReady obs = .timeout) ∧
    (∀ (r1 r2 r3 : GitRepository) (c : Condition),
      FindStatusCondition r1.status.conditions ReadyCondition = none →
      FindStatusCondition r2.status.conditions ReadyCondition = none →
      FindStatusCondition r3.status.conditions ReadyCondition = some c →
      c.status = .conditionTrue →
      pollGitRepositoryReady [.ok r1, .ok r2, .ok r3] = .ready r3) ∧
    (∀ (r1 r2 : GitRepository) (c : Condition),
      FindStatusCondition r1.status.conditions ReadyCondition = none →
      FindStatusCondition r2.status.conditions ReadyCondition = some c →
      c.status = .conditionFalse →
      pollGitRepositoryReady [.ok r1, .ok r2] = .failed (Errorf c.message)) ∧
    (∀ msg : String, (PollOutcome.timeout : PollOutcome) ≠ .failed msg) ∧
    (∀ r : GitRepository, (PollOutcome.timeout : PollOutcome) ≠ .ready r) := by
  refine ⟨?_, ?_, ?_, ?_, ?_, ?_, ?_, ?_, ?_⟩
  · intro r c h1 h2
    simp [isGitRepositoryReady, h1, h2]
  · intro r c h1 h2
    simp [isGitRepositoryReady, h1, h2]
  · intro r h1
    simp [isGitRepositoryReady, h1]
  · intro r c h1 h2
    simp [isGitRepositoryReady, h1, h2]
  · intro obs
    induction obs with
    | nil => intro _; rfl
    | cons o rest ih =>
      intro h
      have ho := h o (by simp)
      cases o with
      | error e => simp [isGitRepositoryReady] at ho
      | ok r =>
        have hrest : ∀ o2 ∈ rest, isGitRepositoryReady o2 = .pending :=
          fun o2 h2 => h o2 (by simp [h2])
        rw [pollGitRepositoryReady, ho]
        exact ih hrest
  · intro r1 r2 r3 c h1 h2 h3 h4
    simp [pollGitRepositoryReady, isGitRepositoryReady, h1, h2, h3, h4]
  · intro r1 r2 c h1 h2 h3
    simp [pollGitRepositoryReady, isGitRepositoryReady, h1, h2, h3]
  · intro msg h
    exact PollOutcome.noConfusion h
  · intro r h
    exact PollOutcome.noConfusion h

/-- Sample resource status used to evaluate the poller theorems on
concrete inputs. -/
def repoWithStatus (cs : List Condition) (a : Option Artifact) : GitRepository :=
  { metadata := { name := "podinfo", ns := "flux-system", labels := [] }
    spec := { url := "https://example.com/repo.git", interval := 60, reference := {} }
    status := { conditions := cs, artifact := a } }

theorem readiness_state_machine_witness :
    pollGitRepositoryReady [.ok (repoWithStatus [] none), .ok (repoWithStatus [] none),
        .ok (repoWithStatus [⟨"Ready", .conditionTrue, "fetched"⟩] (some ⟨"rev1"⟩))] =
      .ready (repoWithStatus [⟨"Ready", .conditionTrue, "fetched"⟩] (some ⟨"rev1"⟩)) ∧
    pollGitRepositoryReady [.ok (repoWithStatus [] none),
        .ok (repoWithStatus [⟨"Ready", .conditionFalse, "auth failed"⟩] none)] =
      .failed "auth failed" := by
  obtain ⟨-, -, -, -, -, h6, h7, -, -⟩ := readiness_state_machine
  refine ⟨h6 _ _ _ ⟨"Ready", .conditionTrue, "fetched"⟩ rfl rfl (by decide) rfl, ?_⟩
  have h := h7 (repoWithStatus [] none)
    (repoWithStatus [⟨"Ready", .conditionFalse, "auth failed"⟩] none)
    ⟨"Ready", .conditionFalse, "auth failed"⟩ (by decide) (by decide) rfl
  rw [h]
  decide

theorem ErrorfGo_no_percent (fuel : Nat) : ∀ cs : List Char, cs.length < fuel →
    (∀ ch ∈ cs, ch ≠ '%') → ErrorfGo fuel cs = cs := by
  induction fuel with
  | zero => intro cs h _; omega
  | succ n ih =>
    intro cs hlen hch
    cases cs with
    | nil => rfl
    | cons c rest =>
      have hc : c ≠ '%' := hch c (by simp)
      rw [ErrorfGo, if_neg hc]
      have := ih rest (by simpa using Nat.lt_of_succ_lt_succ hlen)
        (fun ch hm => hch ch (by simp [hm]))
      rw [this]

theorem Errorf_no_percent (s : String) (h : ∀ ch ∈ s.data, ch ≠ '%') :
    Errorf s = s := by
  unfold Errorf
  rw [ErrorfGo_no_percent _ s.data (by omega) h]

/-- C7 (amended): when the Ready condition's status is False, the poller's
error is `fmt.Errorf` applied to the controller-supplied message with no
operands; it equals the message character for character whenever the
message contains no `%` character, but not for every possible message. -/
theorem failed_message_format (r : GitRepository) (c : Condition)
    (h1 : FindStatusCondition r.status.conditions ReadyCondition = some c)
    (h2 : c.status = .conditionFalse) :
    isGitRepositoryReady (.ok r) = .failure (Errorf c.message) ∧
    (∀ rest, pollGitRepositoryReady (.ok r :: rest) = .failed (Errorf c.message)) ∧
    ((∀ ch ∈ c.message.data, ch ≠ '%') →
      isGitRepositoryReady (.ok r) = .failure c.message) := by
  refine ⟨?_, ?_, ?_⟩
  · simp [isGitRepositoryReady, h1, h2]
  · intro rest
    simp [pollGitRepositoryReady, isGitRepositoryReady, h1, h2]
  · intro h
    simp [isGitRepositoryReady, h1, h2, Errorf_no_percent c.message h]

theorem failed_message_format_witness :
    isGitRepositoryReady (.ok (repoWithStatus
        [⟨"Ready", .conditionFalse, "remote unreachable"⟩] none)) =
      .failure "remote unreachable" := by
  have h := failed_message_format
    (repoWithStatus [⟨"Ready", .conditionFalse, "remote unreachable"⟩] none)
    ⟨"Ready", .conditionFalse, "remote unreachable"⟩ (by decide) rfl
  exact h.2.2 (by decide)

/-- C7 counterexample: the condition message `"%s"` is not surfaced
verbatim — `fmt.Errorf` consumes it as a format string with no operands and
the error reads `"%!s(MISSING)"`. -/
theorem failed_message_verbatim_counterexample :
    isGitRepositoryReady (.ok (repoWithStatus
        [⟨"Ready", .conditionFalse, "%s"⟩] none)) = .failure "%!s(MISSING)" ∧
    isGitRepositoryReady (.ok (repoWithStatus
        [⟨"Ready", .conditionFalse, "%s"⟩] none)) ≠ .failure "%s" := by
  decide

/-- C8: a read error while polling is returned by the condition function
as its error, and the polling loop stops with that error at once — it is
never swallowed to keep polling, whatever observations would follow. -/
theorem poll_read_error_fatal (e : String) (rest : List (Except String GitRepository)) :
    isGitRepositoryReady (.error e) = .failure e ∧
    pollGitRepositoryReady (.error e :: rest) = .failed e := by
  exact ⟨rfl, rfl⟩

/-- C3: a Ready poll outcome without an artifact record concludes with the
artifact-missing error, success arises only from a Ready outcome whose
object holds an artifact (and Ready itself only from a True Ready
condition), and any run that returns reconciliation success did observe a
Ready object with an artifact. -/
theorem artifact_missing_not_success :
    (∀ r : GitRepository, r.status.artifact = none →
      concludeRun (.ready r) =
        .error "GitRepository source reconciliation completed but no artifact was found") ∧
    (∀ (po : PollOutcome) (out : RunOutcome), concludeRun po = .ok out →
      ∃ r a, po = .ready r ∧ r.status.artifact = some a ∧ out = .reconciled a.revision) ∧
    (∀ (obs : List (Except String GitRepository)) (r : GitRepository),
      pollGitRepositoryReady obs = .ready r →
      ∃ c, FindStatusCondition r.status.conditions ReadyCondition = some c ∧
        c.status = .conditionTrue) ∧
    (∀ args flags ext secrets kc obs rev,
      (createSourceGitCmdRun args flags ext secrets kc obs).outcome =
        .ok (.reconciled rev) →
      ∃ r a, pollGitRepositoryReady obs = .ready r ∧ r.status.artifact = some a ∧
        a.revision = rev) := by
  refine ⟨?_, ?_, ?_, ?_⟩
  · intro r h
    simp [concludeRun, h]
  · intro po out h
    cases po with
    | timeout => simp [concludeRun] at h
    | failed msg => simp [concludeRun] at h
    | ready r =>
      cases ha : r.status.artifact with
      | none => simp [concludeRun, ha] at h
      | some a =>
        simp [concludeRun, ha] at h
        exact ⟨r, a, rfl, ha, h.symm⟩
  · exact poll_ready_find
  · intro args flags ext secrets kc obs rev h
    have hc := run_outcome_reconciled h
    cases hpo : pollGitRepositoryReady obs with
    | timeout => rw [hpo] at hc; simp [concludeRun] at hc
    | failed msg => rw [hpo] at hc; simp [concludeRun] at hc
    | ready r =>
      rw [hpo] at hc
      cases ha : r.status.artifact with
      | none => simp [concludeRun, ha] at hc
      | some a =>
        simp [concludeRun, ha] at hc
        exact ⟨r, a, rfl, ha, hc⟩

theorem artifact_missing_not_success_witness :
    concludeRun (.ready (repoWithStatus [⟨"Ready", .conditionTrue, "fetched"⟩] none)) =
      .error "GitRepository source reconciliation completed but no artifact was found" :=
  artifact_missing_not_success.1
    (repoWithStatus [⟨"Ready", .conditionTrue, "fetched"⟩] none) rfl

/-- C6: the constructed revision selector sets semver when non-empty, else
tag when non-empty, else branch; at most one of the three fields is ever
set, and every GitRepository the run upserts carries exactly this
selector. -/
theorem revision_selector_mutual_exclusion (flags : RunFlags) :
    (flags.semver ≠ "" →
      buildGitRepositoryRef flags = { branch := "", tag := "", semver := flags.semver }) ∧
    (flags.semver = "" → flags.tag ≠ "" →
      buildGitRepositoryRef flags = { branch := "", tag := flags.tag, semver := "" }) ∧
    (flags.semver = "" → flags.tag = "" →
      buildGitRepositoryRef flags = { branch := flags.branch, tag := "", semver := "" }) ∧
    ((if (buildGitRepositoryRef flags).branch = "" then 0 else 1) +
      (if (buildGitRepositoryRef flags).tag = "" then 0 else 1) +
      (if (buildGitRepositoryRef flags).semver = "" then 0 else 1) ≤ 1) ∧
    (∀ args ext secrets kc obs r,
      Event.upsertRepo r ∈ (createSourceGitCmdRun args flags ext secrets kc obs).trace →
      r.spec.reference = buildGitRepositoryRef flags) := by
  refine ⟨?_, ?_, ?_, ?_, ?_⟩
  · intro h
    simp [buildGitRepositoryRef, h]
  · intro h1 h2
    simp [buildGitRepositoryRef, h1, h2]
  · intro h1 h2
    simp [buildGitRepositoryRef, h1, h2]
  · by_cases hs : flags.semver = ""
    · by_cases ht : flags.tag = ""
      · by_cases hb : flags.branch = "" <;> simp [buildGitRepositoryRef, hs, ht, hb]
      · simp [buildGitRepositoryRef, hs, ht]
    · simp [buildGitRepositoryRef, hs]
  · intro args ext secrets kc obs r h
    obtain ⟨name, withAuth, hr⟩ := run_upsertRepo_shape h
    subst hr
    cases withAuth <;> simp [finalGitRepository, desiredGitRepository]

theorem revision_selector_mutual_exclusion_witness :
    buildGitRepositoryRef { url := "https://example.com/repo.git", tag := "3.2.3" } =
      { branch := "", tag := "3.2.3", semver := "" } :=
  ((revision_selector_mutual_exclusion
    { url := "https://example.com/repo.git", tag := "3.2.3" }).2.1) rfl (by decide)

/-- C4: on the update path the upsert writes back the existing object with
exactly its labels and spec replaced by the desired ones — name, namespace,
resource version and status are those of the existing object, and every
other key of the store is untouched; on NotFound it creates the full
desired object; and any injected read or write error is propagated
unmodified. -/
theorem upsertGitRepository_frame (kc : KubeClient) (d : GitRepository) :
    (∀ existing, kc.getErr = none →
      Store.get kc.repos ⟨d.metadata.ns, d.metadata.name⟩ = some existing →
      kc.updateErr = none →
      ∃ u, upsertGitRepository kc d =
          (⟨d.metadata.ns, d.metadata.name⟩,
            .ok (Store.put kc.repos ⟨d.metadata.ns, d.metadata.name⟩ u, .updated)) ∧
        u.metadata.labels = d.metadata.labels ∧ u.spec = d.spec ∧
        u.metadata.name = existing.metadata.name ∧
        u.metadata.ns = existing.metadata.ns ∧
        u.metadata.resourceVersion = existing.metadata.resourceVersion ∧
        u.status = existing.status ∧
        (∀ k, (⟨d.metadata.ns, d.metadata.name⟩ : NamespacedName) ≠ k →
          Store.get (Store.put kc.repos ⟨d.metadata.ns, d.metadata.name⟩ u) k =
            Store.get kc.repos k)) ∧
    (kc.getErr = none →
      Store.get kc.repos ⟨d.metadata.ns, d.metadata.name⟩ = none →
      kc.createErr = none →
      upsertGitRepository kc d = (⟨d.metadata.ns, d.metadata.name⟩,
        .ok (Store.put kc.repos ⟨d.metadata.ns, d.metadata.name⟩ d, .created))) ∧
    (∀ e, kc.getErr = some e →
      upsertGitRepository kc d = (⟨d.metadata.ns, d.metadata.name⟩, .error e)) ∧
    (∀ e, kc.getErr = none →
      Store.get kc.repos ⟨d.metadata.ns, d.metadata.name⟩ = none →
      kc.createErr = some e →
      upsertGitRepository kc d = (⟨d.metadata.ns, d.metadata.name⟩, .error e)) ∧
    (∀ existing e, kc.getErr = none →
      Store.get kc.repos ⟨d.metadata.ns, d.metadata.name⟩ = some existing →
      kc.updateErr = some e →
      upsertGitRepository kc d = (⟨d.metadata.ns, d.metadata.name⟩, .error e)) := by
  refine ⟨?_, ?_, ?_, ?_, ?_⟩
  · intro existing hg hf hu
    refine ⟨updatedExisting existing d, ?_, rfl, rfl, rfl, rfl, rfl, rfl, ?_⟩
    · simp [upsertGitRepository, hg, hf, hu]
    · intro k hk
      exact Store.get_put_ne kc.repos _ k _ hk
  · intro hg hf hc
    simp [upsertGitRepository, hg, hf, hc]
  · intro e hg
    simp [upsertGitRepository, hg]
  · intro e hg hf hc
    simp [upsertGitRepository, hg, hf, hc]
  · intro existing e hg hf hu
    simp [upsertGitRepository, hg, hf, hu]

/-- An existing stored object used to evaluate the upsert theorems at a
concrete input. -/
def storedRepo : GitRepository :=
  { metadata := { name := "podinfo", ns := "flux-system",
                  labels := [("old", "label")], resourceVersion := 7 }
    spec := { url := "https://old.example.com/repo.git", interval := 30, reference := {} }
    status := { conditions := [⟨"Ready", .conditionTrue, "fetched"⟩],
                artifact := some ⟨"rev0"⟩ } }

/-- The desired object used to evaluate the upsert theorems at a concrete
input. -/
def desiredRepo : GitRepository :=
  { metadata := { name := "podinfo", ns := "flux-system", labels := [("new", "label")] }
    spec := { url := "https://example.com/repo.git", interval := 60,
              reference := { branch := "master" } }
    status := { conditions := [], artifact := none } }

theorem upsertGitRepository_frame_witness :
    ∃ u, upsertGitRepository
        { repos := [(⟨"flux-system", "podinfo"⟩, storedRepo)] } desiredRepo =
        (⟨"flux-system", "podinfo"⟩,
          .ok (Store.put [(⟨"flux-system", "podinfo"⟩, storedRepo)]
            ⟨"flux-system", "podinfo"⟩ u, .updated)) ∧
      u.metadata.labels = desiredRepo.metadata.labels ∧ u.spec = desiredRepo.spec ∧
      u.metadata.name = storedRepo.metadata.name ∧
      u.metadata.ns = storedRepo.metadata.ns ∧
      u.metadata.resourceVersion = storedRepo.metadata.resourceVersion ∧
      u.status = storedRepo.status := by
  obtain ⟨u, h1, h2, h3, h4, h5, h6, h7, -⟩ :=
    (upsertGitRepository_frame
      { repos := [(⟨"flux-system", "podinfo"⟩, storedRepo)] } desiredRepo).1
      storedRepo rfl (by decide) rfl
  exact ⟨u, h1, h2, h3, h4, h5, h6, h7⟩

/-- C9: upserting the same desired object twice with no interleaved store
change returns the same namespaced name both times, leaves the store after
the second upsert equal to the store after the first, and stores under
that key an object whose spec and labels equal the latest input — created
as the desired object when the key was absent, otherwise keeping the
pre-existing object's name, namespace, resource version and status. -/
theorem upsertGitRepository_idempotent (s : Store) (d : GitRepository) :
    ∃ s1 o1, upsertGitRepository { repos := s } d =
        (⟨d.metadata.ns, d.metadata.name⟩, .ok (s1, o1)) ∧
      upsertGitRepository { repos := s1 } d =
        (⟨d.metadata.ns, d.metadata.name⟩, .ok (s1, .updated)) ∧
      ∃ r, Store.get s1 ⟨d.metadata.ns, d.metadata.name⟩ = some r ∧
        r.spec = d.spec ∧ r.metadata.labels = d.metadata.labels ∧
        (Store.get s ⟨d.metadata.ns, d.metadata.name⟩ = none → r = d) ∧
        (∀ ex, Store.get s ⟨d.metadata.ns, d.metadata.name⟩ = some ex →
          r.metadata.name = ex.metadata.name ∧ r.metadata.ns = ex.metadata.ns ∧
          r.metadata.resourceVersion = ex.metadata.resourceVersion ∧
          r.status = ex.status) := by
  cases hf : Store.get s ⟨d.metadata.ns, d.metadata.name⟩ with
  | none =>
    refine ⟨Store.put s ⟨d.metadata.ns, d.metadata.name⟩ d, .created, ?_, ?_, d, ?_, rfl,
      rfl, ?_, ?_⟩
    · simp [upsertGitRepository, hf]
    · have hg := Store.get_put_self s ⟨d.metadata.ns, d.metadata.name⟩ d
      simp [upsertGitRepository, hg, Store.put_put, updatedExisting_self]
    · exact Store.get_put_self s ⟨d.metadata.ns, d.metadata.name⟩ d
    · intro _
      rfl
    · intro ex hex
      exact Option.noConfusion hex
  | some ex =>
    refine ⟨Store.put s ⟨d.metadata.ns, d.metadata.name⟩ (updatedExisting ex d), .updated,
      ?_, ?_, updatedExisting ex d, ?_, rfl, rfl, ?_, ?_⟩
    · simp [upsertGitRepository, hf]
    · have hg := Store.get_put_self s ⟨d.metadata.ns, d.metadata.name⟩ (updatedExisting ex d)
      simp [upsertGitRepository, hg, Store.put_put, updatedExisting_idem]
    · exact Store.get_put_self s ⟨d.metadata.ns, d.metadata.name⟩ _
    · intro hnone
      exact Option.noConfusion hnone
    · intro ex2 hex2
      obtain rfl := Option.some.inj hex2
      exact ⟨rfl, rfl, rfl, rfl⟩

theorem upsertGitRepository_idempotent_witness :
    ∃ s1 o1, upsertGitRepository
        { repos := [(⟨"flux-system", "podinfo"⟩, storedRepo)] } desiredRepo =
        (⟨"flux-system", "podinfo"⟩, .ok (s1, o1)) ∧
      upsertGitRepository { repos := s1 } desiredRepo =
        (⟨"flux-system", "podinfo"⟩, .ok (s1, .updated)) := by
  obtain ⟨s1, o1, h1, h2, -⟩ := upsertGitRepository_idempotent
    [(⟨"flux-system", "podinfo"⟩, storedRepo)] desiredRepo
  exact ⟨s1, o1, h1, h2⟩

theorem applyAndWait_no_secret {kc : KubeClient} {r : GitRepository}
    {obs : List (Except String GitRepository)} (s : Secret) :
    Event.upsertSecret s ∉ (applyAndWait kc r obs).2.1 := by
  intro h
  rcases applyAndWait_mem_cases h with h2 | h2 <;> simp at h2

theorem applyAndWait_no_generate {kc : KubeClient} {r : GitRepository}
    {obs : List (Except String GitRepository)} :
    Event.generateKeyPair ∉ (applyAndWait kc r obs).2.1 := by
  intro h
  rcases applyAndWait_mem_cases h with h2 | h2 <;> simp at h2

theorem applyAndWait_no_scan {kc : KubeClient} {r : GitRepository}
    {obs : List (Except String GitRepository)} :
    Event.scanHostKey ∉ (applyAndWait kc r obs).2.1 := by
  intro h
  rcases applyAndWait_mem_cases h with h2 | h2 <;> simp at h2

theorem applyAndWait_upsertRepo_eq {kc : KubeClient} {r r2 : GitRepository}
    {obs : List (Except String GitRepository)}
    (h : Event.upsertRepo r2 ∈ (applyAndWait kc r obs).2.1) : r2 = r := by
  rcases applyAndWait_mem_cases h with h2 | h2 <;> simp at h2
  exact h2

theorem finalGitRepository_secretRef_explicit {name : String} {flags : RunFlags}
    (h : flags.secretRef ≠ "") :
    (finalGitRepository name flags true).spec.secretRef = some ⟨flags.secretRef⟩ := by
  simp [finalGitRepository, desiredGitRepository, h]

theorem finalGitRepository_secretRef_own {name : String} {flags : RunFlags}
    (h : flags.secretRef = "") :
    (finalGitRepository name flags true).spec.secretRef = some ⟨name⟩ := by
  simp [finalGitRepository, desiredGitRepository, h]

theorem finalGitRepository_secretRef_none {name : String} {flags : RunFlags} :
    (finalGitRepository name flags false).spec.secretRef = none := by
  simp [finalGitRepository, desiredGitRepository]

/-- C1: exactly one credential strategy is active per run, in strict
precedence: an explicit secret reference suppresses key generation, the
host-key probe and secret publication and is referenced verbatim by the
applied resource; otherwise an SSH-scheme URL publishes a generated SSH
secret under the resource's own name; otherwise non-empty username and
password publish a basic-auth secret under the resource's own name;
otherwise nothing is published and the credential reference stays unset. -/
theorem credential_strategy_precedence
    (name : String) (rest : List String) (flags : RunFlags) (ext : ExternalOps)
    (secrets : SecretStore) (kc : KubeClient)
    (obs : List (Except String GitRepository)) (scheme : String)
    (h1 : flags.url ≠ "") (h2 : getScheme flags.url = .ok scheme)
    (h3 : flags.gitImplementation = "go-git" ∨ flags.gitImplementation = "libgit2" ∨
      flags.gitImplementation = "")
    (h4 : flags.exportFlag = false) :
    (flags.secretRef ≠ "" →
      (∀ s, Event.upsertSecret s ∉
        (createSourceGitCmdRun (name :: rest) flags ext secrets kc obs).trace) ∧
      Event.generateKeyPair ∉
        (createSourceGitCmdRun (name :: rest) flags ext secrets kc obs).trace ∧
      Event.scanHostKey ∉
        (createSourceGitCmdRun (name :: rest) flags ext secrets kc obs).trace ∧
      Event.upsertRepo (finalGitRepository name flags true) ∈
        (createSourceGitCmdRun (name :: rest) flags ext secrets kc obs).trace ∧
      (finalGitRepository name flags true).spec.secretRef = some ⟨flags.secretRef⟩ ∧
      (createSourceGitCmdRun (name :: rest) flags ext secrets kc obs).secrets = secrets) ∧
    (flags.secretRef = "" → scheme = "ssh" →
      ∀ pair hostKey, ext.keyPair = .ok pair → ext.promptConfirmed = true →
        ext.hostKey = .ok hostKey →
        Event.generateKeyPair ∈
          (createSourceGitCmdRun (name :: rest) flags ext secrets kc obs).trace ∧
        Event.scanHostKey ∈
          (createSourceGitCmdRun (name :: rest) flags ext secrets kc obs).trace ∧
        Event.upsertSecret (sshSecret name flags pair hostKey) ∈
          (createSourceGitCmdRun (name :: rest) flags ext secrets kc obs).trace ∧
        (sshSecret name flags pair hostKey).metadata.name = name ∧
        (sshSecret name flags pair hostKey).metadata.ns = flags.ns ∧
        (∀ r, Event.upsertRepo r ∈
          (createSourceGitCmdRun (name :: rest) flags ext secrets kc obs).trace →
          r = finalGitRepository name flags true) ∧
        (finalGitRepository name flags true).spec.secretRef = some ⟨name⟩ ∧
        (createSourceGitCmdRun (name :: rest) flags ext secrets kc obs).secrets =
          upsertSecretStore secrets ⟨flags.ns, name⟩ (sshSecret name flags pair hostKey)) ∧
    (flags.secretRef = "" → scheme ≠ "ssh" → flags.username ≠ "" → flags.password ≠ "" →
      Event.upsertSecret (basicAuthSecret name flags) ∈
        (createSourceGitCmdRun (name :: rest) flags ext secrets kc obs).trace ∧
      (basicAuthSecret name flags).metadata.name = name ∧
      (basicAuthSecret name flags).stringData =
        [("username", flags.username), ("password", flags.password)] ∧
      Event.generateKeyPair ∉
        (createSourceGitCmdRun (name :: rest) flags ext secrets kc obs).trace ∧
      Event.scanHostKey ∉
        (createSourceGitCmdRun (name :: rest) flags ext secrets kc obs).trace ∧
      (∀ r, Event.upsertRepo r ∈
        (createSourceGitCmdRun (name :: rest) flags ext secrets kc obs).trace →
        r = finalGitRepository name flags true) ∧
      (finalGitRepository name flags true).spec.secretRef = some ⟨name⟩ ∧
      (createSourceGitCmdRun (name :: rest) flags ext secrets kc obs).secrets =
        upsertSecretStore secrets ⟨flags.ns, name⟩ (basicAuthSecret name flags)) ∧
    (flags.secretRef = "" → scheme ≠ "ssh" →
      (flags.username = "" ∨ flags.password = "") →
      (∀ s, Event.upsertSecret s ∉
        (createSourceGitCmdRun (name :: rest) flags ext secrets kc obs).trace) ∧
      Event.generateKeyPair ∉
        (createSourceGitCmdRun (name :: rest) flags ext secrets kc obs).trace ∧
      Event.scanHostKey ∉
        (createSourceGitCmdRun (name :: rest) flags ext secrets kc obs).trace ∧
      (∀ r, Event.upsertRepo r ∈
        (createSourceGitCmdRun (name :: rest) flags ext secrets kc obs).trace →
        r = finalGitRepository name flags false) ∧
      (finalGitRepository name flags false).spec.secretRef = none ∧
      (createSourceGitCmdRun (name :: rest) flags ext secrets kc obs).secrets = secrets) := by
  refine ⟨?_, ?_, ?_, ?_⟩
  · intro hsr
    rw [createSourceGitCmdRun_eq h1 h2 h3 h4, provisionAuth_secretRef hsr]
    refine ⟨?_, ?_, ?_, ?_, finalGitRepository_secretRef_explicit hsr, rfl⟩
    · intro s
      simpa using applyAndWait_no_secret s
    · simpa using applyAndWait_no_generate
    · simpa using applyAndWait_no_scan
    · simpa using applyAndWait_upsertRepo_mem kc (finalGitRepository name flags true) obs
  · intro hsr hsch pair hostKey hkp hpc hhk
    subst hsch
    rw [createSourceGitCmdRun_eq h1 h2 h3 h4, provisionAuth_ssh hsr hkp hpc hhk]
    refine ⟨by simp, by simp, by simp, rfl, rfl, ?_, finalGitRepository_secretRef_own hsr,
      rfl⟩
    intro r h
    simp at h
    exact applyAndWait_upsertRepo_eq h
  · intro hsr hsch hu hp
    rw [createSourceGitCmdRun_eq h1 h2 h3 h4, provisionAuth_basic hsr hsch hu hp]
    refine ⟨by simp, rfl, rfl, ?_, ?_, ?_, finalGitRepository_secretRef_own hsr, rfl⟩
    · intro h
      simp at h
      exact applyAndWait_no_generate h
    · intro h
      simp at h
      exact applyAndWait_no_scan h
    · intro r h
      simp at h
      exact applyAndWait_upsertRepo_eq h
  · intro hsr hsch hup
    rw [createSourceGitCmdRun_eq h1 h2 h3 h4, provisionAuth_none hsr hsch hup]
    refine ⟨?_, ?_, ?_, ?_, finalGitRepository_secretRef_none, rfl⟩
    · intro s
      simpa using applyAndWait_no_secret s
    · simpa using applyAndWait_no_generate
    · simpa using applyAndWait_no_scan
    · intro r h
      exact applyAndWait_upsertRepo_eq (by simpa using h)

/-- Flags of a run with an explicit secret reference, used to evaluate the
strategy-selection theorem at a concrete input. -/
def explicitRefFlags : RunFlags :=
  { url := "https://example.com/repo.git", secretRef := "my-credentials" }

theorem credential_strategy_precedence_witness :
    Event.upsertRepo (finalGitRepository "podinfo" explicitRefFlags true) ∈
      (createSourceGitCmdRun ["podinfo"] explicitRefFlags {} [] { repos := [] } []).trace ∧
    (finalGitRepository "podinfo" explicitRefFlags true).spec.secretRef =
      some ⟨"my-credentials"⟩ ∧
    Event.generateKeyPair ∉
      (createSourceGitCmdRun ["podinfo"] explicitRefFlags {} [] { repos := [] } []).trace := by
  have h := (credential_strategy_precedence "podinfo" [] explicitRefFlags {} []
    { repos := [] } [] "https" (by decide) (by decide) (.inr (.inr rfl)) rfl).1 (by decide)
  exact ⟨h.2.2.2.1, h.2.2.2.2.1, h.2.1⟩

/-- C5: every secret any run publishes carries exactly the SSH key set
{identity, identity.pub, known_hosts} or the basic-auth key set
{username, password}, never a mixture; and in an SSH-scheme run without an
explicit secret reference, key generation and host-key discovery precede
any secret publication in the event trace. -/
theorem ssh_provisioning_order_and_key_sets :
    (∀ args flags ext secrets kc obs s,
      Event.upsertSecret s ∈ (createSourceGitCmdRun args flags ext secrets kc obs).trace →
      s.stringData.map Prod.fst = ["identity", "identity.pub", "known_hosts"] ∨
      s.stringData.map Prod.fst = ["username", "password"]) ∧
    (∀ name rest flags ext secrets kc obs,
      flags.url ≠ "" → getScheme flags.url = .ok "ssh" →
      (flags.gitImplementation = "go-git" ∨ flags.gitImplementation = "libgit2" ∨
        flags.gitImplementation = "") →
      flags.exportFlag = false → flags.secretRef = "" →
      ∀ s pre post,
        (createSourceGitCmdRun (name :: rest) flags ext secrets kc obs).trace =
          pre ++ Event.upsertSecret s :: post →
        Event.generateKeyPair ∈ pre ∧ Event.scanHostKey ∈ pre) := by
  constructor
  · intro args flags ext secrets kc obs s h
    obtain ⟨name, hshape⟩ := run_secret_shape h
    rcases hshape with ⟨pair, hostKey, rfl⟩ | rfl
    · left
      simp [sshSecret]
    · right
      simp [basicAuthSecret]
  · intro name rest flags ext secrets kc obs h1 h2 h3 h4 hsr s pre post htr
    rw [createSourceGitCmdRun_eq h1 h2 h3 h4] at htr
    cases hkp : ext.keyPair with
    | error e =>
      rw [provisionAuth_ssh_keyFail hsr hkp] at htr
      simp at htr
      cases pre with
      | nil => simp_all
      | cons x pre1 => simp_all
    | ok pair =>
      cases hpc : ext.promptConfirmed with
      | false =>
        rw [provisionAuth_ssh_declined hsr hkp hpc] at htr
        simp at htr
        cases pre with
        | nil => simp_all
        | cons x pre1 => simp_all
      | true =>
        cases hhk : ext.hostKey with
        | error e =>
          rw [provisionAuth_ssh_scanFail hsr hkp hpc hhk] at htr
          simp at htr
          cases pre with
          | nil => simp_all
          | cons x pre1 => cases pre1 <;> simp_all
        | ok hostKey =>
          rw [provisionAuth_ssh hsr hkp hpc hhk] at htr
          simp at htr
          cases pre with
          | nil => simp at htr
          | cons x pre1 =>
            cases pre1 with
            | nil => simp at htr
            | cons y pre2 =>
              simp at htr
              obtain ⟨hx, hy, -⟩ := htr
              subst hx
              subst hy
              simp

theorem ssh_provisioning_order_witness :
    (sshSecret "podinfo" { url := "ssh://git@example.com/org/repo.git" }
        ⟨"priv", "pub"⟩ "hostkey").stringData.map Prod.fst =
      ["identity", "identity.pub", "known_hosts"] ∨
    (sshSecret "podinfo" { url := "ssh://git@example.com/org/repo.git" }
        ⟨"priv", "pub"⟩ "hostkey").stringData.map Prod.fst =
      ["username", "password"] :=
  ssh_provisioning_order_and_key_sets.1 ["podinfo"]
    { url := "ssh://git@example.com/org/repo.git" } {} [] { repos := [] } [] _ (by decide)

/-- C10: with the export flag set the run performs no effects at all — no
client reads or writes, no key generation, no host-key probe — and leaves
both stores untouched; the exported resource references a credential only
when an explicit secret reference was supplied, so an exported SSH-scheme
resource without one carries no credential reference. -/
theorem export_performs_no_effects
    (name : String) (rest : List String) (flags : RunFlags) (ext : ExternalOps)
    (secrets : SecretStore) (kc : KubeClient)
    (obs : List (Except String GitRepository)) (scheme : String)
    (h1 : flags.url ≠ "") (h2 : getScheme flags.url = .ok scheme)
    (h3 : flags.gitImplementation = "go-git" ∨ flags.gitImplementation = "libgit2" ∨
      flags.gitImplementation = "")
    (h4 : flags.exportFlag = true) :
    createSourceGitCmdRun (name :: rest) flags ext secrets kc obs =
      ⟨.ok (.exported (exportedGitRepository name flags)), [], secrets, kc⟩ ∧
    (flags.secretRef ≠ "" →
      (exportedGitRepository name flags).spec.secretRef = some ⟨flags.secretRef⟩) ∧
    (flags.secretRef = "" →
      (exportedGitRepository name flags).spec.secretRef = none) := by
  refine ⟨?_, ?_, ?_⟩
  · simp [createSourceGitCmdRun, h1, h2, h3, h4]
  · intro h
    simp [exportedGitRepository, desiredGitRepository, h]
  · intro h
    simp [exportedGitRepository, desiredGitRepository, h]

theorem export_performs_no_effects_witness :
    createSourceGitCmdRun ["podinfo"]
        { url := "ssh://git@example.com/org/repo.git", exportFlag := true } {} []
        { repos := [] } [] =
      ⟨.ok (.exported (exportedGitRepository "podinfo"
          { url := "ssh://git@example.com/org/repo.git", exportFlag := true })), [],
        [], { repos := [] }⟩ ∧
    (exportedGitRepository "podinfo"
        { url := "ssh://git@example.com/org/repo.git", exportFlag := true }).spec.secretRef =
      none := by
  have h := export_performs_no_effects "podinfo" []
    { url := "ssh://git@example.com/org/repo.git", exportFlag := true } {} []
    { repos := [] } [] "ssh" (by decide) (by decide) (.inr (.inr rfl)) rfl
  exact ⟨h.1, h.2.2 rfl⟩

end CreateSourceGit
